import Mathlib

/-!
Verification development for the NakenChatAIBot message pipeline.

The Python sources are embedded shallowly:
* strings are `String` / `List Char`; Python string primitives (`find`,
  `rfind`, `strip`, `lower`, slicing, `split(maxsplit=1)`) are modelled by
  executable functions below;
* `time.time()` becomes an explicit `now : ℤ` argument threaded through the
  stateful components (`RateLimiter`, `ContextManager`);
* Python dicts become insertion-ordered association lists;
* `collections.deque(maxlen=n)` becomes a capacity-carrying list;
* fallible or exception-raising collaborator calls become `Option`/`Except`
  valued oracles passed as arguments.

`Char.toLower` / `Char.isDigit` only act on ASCII, matching Python's
behaviour on the ASCII inputs the chat protocol carries.
-/

namespace NakenBot

/-- Python's default `str.strip()` / `\s` whitespace class:
space, tab, newline, carriage return, vertical tab, form feed. -/
def pyIsSpace (c : Char) : Bool :=
  c == ' ' || c == '\t' || c == '\n' || c == '\r' || c == '\x0b' || c == '\x0c'

/-- Python `str.lower()` (ASCII range, as carried by the chat protocol). -/
def pyLower (s : List Char) : List Char := s.map Char.toLower

/-- Python `str.strip()`: drop whitespace from both ends. -/
def pyStrip (s : List Char) : List Char :=
  ((s.dropWhile pyIsSpace).reverse.dropWhile pyIsSpace).reverse

/-- Index of the first occurrence of `pat` in `hay`, if any
(the engine behind Python `str.find`). -/
def findSub : List Char → List Char → Option Nat
  | hay, pat =>
    if pat.isPrefixOf hay then some 0
    else match hay with
      | [] => none
      | _ :: t => (findSub t pat).map (· + 1)

/-- Python `str.find`: index of the first occurrence, `-1` when absent. -/
def pyFind (hay pat : List Char) : Int :=
  match findSub hay pat with
  | some i => (i : Int)
  | none => -1

/-- Index of the last occurrence of character `c`, if any
(the engine behind Python `str.rfind` for a single character). -/
def lastIdxOf (c : Char) : List Char → Option Nat
  | [] => none
  | x :: xs =>
    match lastIdxOf c xs with
    | some i => some (i + 1)
    | none => if x == c then some 0 else none

/-- Python `str.rfind` for a single character: last index or `-1`. -/
def pyRFindChar (s : List Char) (c : Char) : Int :=
  match lastIdxOf c s with
  | some i => (i : Int)
  | none => -1

/-- Python slicing `s[:i]` for a possibly negative bound `i`. -/
def pySliceTo (s : List Char) (i : Int) : List Char :=
  if i < 0 then s.take (s.length - i.natAbs) else s.take i.toNat

/-- The last `n` elements of a list (what `collections.deque(xs, maxlen=n)`
retains, and what appending to a full bounded deque leaves). -/
def takeRight (n : Nat) (l : List α) : List α := l.drop (l.length - n)

/-! ## utils/helpers.py -/

/-- `helpers.is_bot_trigger`: case-insensitive substring test, false on empty
message or empty trigger. -/
def is_bot_trigger (message trigger : String) : Bool :=
  if message.data.isEmpty || trigger.data.isEmpty then false
  else (findSub (pyLower message.data) (pyLower trigger.data)).isSome

/-- `helpers.truncate_response`. The Python comparison
`last_space > max_length * 0.8` is modelled exactly as
`5 * last_space > 4 * max_length`; for every `max_length` below `2 ^ 50`
the float product `max_length * 0.8` either equals `4 * max_length / 5`
exactly (when `5 ∣ max_length`) or differs from it by far less than the
`≥ 1/5` gap to the nearest integer, so the integer comparison agrees. -/
def truncate_response (response : String) (maxLength : Nat) : String :=
  if response.data.length ≤ maxLength then response
  else
    let truncated := pySliceTo response.data ((maxLength : Int) - 3)
    let lastSpace := pyRFindChar truncated ' '
    if 5 * lastSpace > 4 * (maxLength : Int) then
      ⟨pySliceTo truncated lastSpace ++ ['.', '.', '.']⟩
    else
      ⟨truncated ++ ['.', '.', '.']⟩

/-! ## Line parsing: the three prefix grammars

`helpers.extract_username_from_message`, `helpers.extract_message_content`
and `NakenChatClient._extract_message_content` try three regexes in order:
`^\[(\d+)\]([^:]+):\s*(.+)$`, `^<(\d+)>([^:]+):\s*(.+)$`,
`^([^:]+):\s*(.+)$`. We embed each regex as a parser returning the captured
(username, content) pair. Notes on the regex semantics for a single
newline-free line (the read loop delivers one sanitized line at a time):
`([^:]+)` is a maximal nonempty run of non-colon characters which must be
followed by a literal `:`; `\s*(.+)$` takes everything after the optional
whitespace run, except that on an all-whitespace tail backtracking leaves
`(.+)` exactly the final character. -/

/-- The `\s*(.+)$` tail of the three patterns: content after the colon. -/
def matchWsContent (tail : List Char) : Option (List Char) :=
  let t2 := tail.dropWhile pyIsSpace
  if !t2.isEmpty then some t2
  else if !tail.isEmpty then some (takeRight 1 tail)
  else none

/-- The `([^:]+):\s*(.+)$` part shared by all three patterns, returning
(username, content). -/
def matchUserColon (s : List Char) : Option (List Char × List Char) :=
  let user := s.takeWhile (fun c => !(c == ':'))
  let rest := s.dropWhile (fun c => !(c == ':'))
  if user.isEmpty then none
  else
    match rest with
    | ':' :: tail => (matchWsContent tail).map (fun content => (user, content))
    | _ => none

/-- A numbered prefix `⟨open⟩(\d+)⟨close⟩` followed by `([^:]+):\s*(.+)$`
(patterns 1 and 2 with brackets resp. angle brackets). -/
def matchNumbered (opn cls : Char) (message : List Char) : Option (List Char × List Char) :=
  match message with
  | [] => none
  | c :: rest =>
    if c == opn then
      let ds := rest.takeWhile Char.isDigit
      let rest2 := rest.dropWhile Char.isDigit
      if ds.isEmpty then none
      else
        match rest2 with
        | c2 :: rest3 => if c2 == cls then matchUserColon rest3 else none
        | [] => none
    else none

/-- First of the three prefix grammars to match, with its captures. -/
def matchAnyPattern (message : List Char) : Option (List Char × List Char) :=
  match matchNumbered '[' ']' message with
  | some r => some r
  | none =>
    match matchNumbered '<' '>' message with
    | some r => some r
    | none => matchUserColon message

/-- `helpers.extract_username_from_message`: username capture of the first
matching pattern, `None` when nothing matches. -/
def extract_username_from_message (message : String) : Option String :=
  (matchAnyPattern message.data).map (fun r => String.mk r.1)

/-- `NakenChatClient._extract_message_content` (identical logic to
`helpers.extract_message_content`): content capture of the first matching
pattern, the whole message when nothing matches. -/
def extract_message_content (message : String) : String :=
  match matchAnyPattern message.data with
  | some r => String.mk r.2
  | none => message

/-! ## MessageProcessor._extract_prompt -/

/-- One pass of the separator loop body:
`if after_trigger.startswith(sep): after_trigger = after_trigger[1:].strip()`. -/
def stripSepStep (l : List Char) (sep : Char) : List Char :=
  match l with
  | [] => []
  | c :: rest => if c == sep then pyStrip rest else c :: rest

/-- `MessageProcessor._extract_prompt`: text after the (case-insensitive)
trigger occurrence, stripped, with the separator loop applied; `none` when
the content is empty, the trigger is absent, or the remainder is empty. -/
def extract_prompt (trigger content : String) : Option String :=
  if content.data.isEmpty then none
  else
    let pos := pyFind (pyLower content.data) (pyLower trigger.data)
    if pos = -1 then none
    else
      let afterTrigger := pyStrip (content.data.drop (pos.toNat + trigger.data.length))
      let afterTrigger := [':', '-', '>', '|'].foldl stripSepStep afterTrigger
      if afterTrigger.isEmpty then none else some (String.mk afterTrigger)

/-! ## Specification-side truncation and prompt derivation

These definitions follow the words of the specification claims (not the
source); refinement theorems below compare them with the source embeddings
`truncate_response` and `extract_prompt`. -/

/-- Truncation exactly as claim C3 words it: first `max−3` characters,
backward search for a space, word-boundary cut accepted when the space sits
at or after position `0.8 × max` (i.e. `4·max ≤ 5·i`), else hard cut, and
`"..."` appended in either case. -/
def truncateClaimed (response : String) (maxLength : Nat) : String :=
  if response.data.length ≤ maxLength then response
  else
    let truncated := response.data.take (maxLength - 3)
    match lastIdxOf ' ' truncated with
    | some i =>
      if 4 * maxLength ≤ 5 * i then String.mk (truncated.take i ++ ['.', '.', '.'])
      else String.mk (truncated ++ ['.', '.', '.'])
    | none => String.mk (truncated ++ ['.', '.', '.'])

/-- Truncation as amended: the word-boundary cut is accepted only when the
space sits strictly after position `0.8 × max` (i.e. `4·max < 5·i`). -/
def truncateWordBoundary (response : String) (maxLength : Nat) : String :=
  if response.data.length ≤ maxLength then response
  else
    let truncated := response.data.take (maxLength - 3)
    match lastIdxOf ' ' truncated with
    | some i =>
      if 4 * maxLength < 5 * i then String.mk (truncated.take i ++ ['.', '.', '.'])
      else String.mk (truncated ++ ['.', '.', '.'])
    | none => String.mk (truncated ++ ['.', '.', '.'])

/-- Prompt derivation exactly as claim C6 words it: the trailing substring
after the trigger occurrence (stripped), with at most one leading separator
among `: - > |` removed. -/
def extractPromptOneSep (trigger content : String) : Option String :=
  if content.data.isEmpty then none
  else
    match findSub (pyLower content.data) (pyLower trigger.data) with
    | none => none
    | some pos =>
      let after := pyStrip (content.data.drop (pos + trigger.data.length))
      let after :=
        match after with
        | [] => []
        | c :: rest =>
          if c == ':' || c == '-' || c == '>' || c == '|' then pyStrip rest
          else c :: rest
      if after.isEmpty then none else some (String.mk after)

/-- Removal of one leading occurrence of a single separator, whitespace
stripped after a removal (building block of the amended claim C6). -/
def stripLeadSep (sep : Char) (l : List Char) : List Char :=
  match l with
  | [] => []
  | c :: rest => if c == sep then pyStrip rest else c :: rest

/-- Prompt derivation as amended: at most one leading occurrence of each
separator is removed, examined in the fixed order `':'`, `'-'`, `'>'`,
`'|'`, with whitespace stripped after every removal. -/
def extractPromptEachSep (trigger content : String) : Option String :=
  if content.data.isEmpty then none
  else
    match findSub (pyLower content.data) (pyLower trigger.data) with
    | none => none
    | some pos =>
      let t0 := pyStrip (content.data.drop (pos + trigger.data.length))
      let t1 := stripLeadSep '|' (stripLeadSep '>' (stripLeadSep '-' (stripLeadSep ':' t0)))
      if t1.isEmpty then none else some (String.mk t1)

/-! ## Insertion-ordered dictionaries

Python `dict` (and `defaultdict`) preserve insertion order; we model them as
association lists with first-match lookup: update-in-place for an existing
key, append for a new key. -/

/-- Dict lookup. -/
def alGet (l : List (String × α)) (k : String) : Option α :=
  (l.find? (fun p => p.1 == k)).map Prod.snd

/-- Dict assignment: in-place update of an existing key, else append. -/
def alSet (l : List (String × α)) (k : String) (v : α) : List (String × α) :=
  if (l.find? (fun p => p.1 == k)).isSome then
    l.map (fun p => if p.1 == k then (k, v) else p)
  else l ++ [(k, v)]

/-- Dict deletion (no-op when the key is absent). -/
def alErase (l : List (String × α)) (k : String) : List (String × α) :=
  l.filter (fun p => !(p.1 == k))

/-! ## bot/rate_limiter.py -/

/-- `RateLimiter` state: the config fields it reads plus
`self.user_requests : defaultdict(list)` and `self.global_requests`.
Timestamps (`time.time()` floats) are modelled as exact rationals. -/
structure RLState where
  enabled : Bool
  maxRequests : Nat
  timeWindow : ℤ
  userRequests : List (String × List ℤ)
  globalRequests : List ℤ
deriving DecidableEq

/-- `RateLimiter._clean_old_requests`: per-user filtering of timestamps
`> cutoff`, deleting users whose list becomes empty, then the same filter on
the global list. -/
def cleanOldRequests (s : RLState) (now : ℤ) : RLState :=
  let cutoff := now - s.timeWindow
  { s with
    userRequests := s.userRequests.filterMap (fun p =>
      let kept := p.2.filter (fun t => cutoff < t)
      if kept.isEmpty then none else some (p.1, kept)),
    globalRequests := s.globalRequests.filter (fun t => cutoff < t) }

/-- `RateLimiter.is_allowed`, returning the decision together with the state
as it is left behind. The read `len(self.user_requests[user_id])` goes
through the `defaultdict`, so it installs an empty entry for a missing key
(this is the only state change besides the lazy pruning). -/
def is_allowed (s : RLState) (now : ℤ) (userId : String) : Bool × RLState :=
  if !s.enabled then (true, s)
  else
    let s1 := cleanOldRequests s now
    let userList := (alGet s1.userRequests userId).getD []
    let s2 :=
      if (alGet s1.userRequests userId).isSome then s1
      else { s1 with userRequests := s1.userRequests ++ [(userId, [])] }
    if s.maxRequests ≤ userList.length then (false, s2)
    else if s.maxRequests * 2 ≤ s2.globalRequests.length then (false, s2)
    else (true, s2)

/-- `RateLimiter.record_request`: append `now` to the user's list (creating
it through the `defaultdict` if needed) and to the global list, then prune. -/
def record_request (s : RLState) (now : ℤ) (userId : String) : RLState :=
  if !s.enabled then s
  else
    let userList := (alGet s.userRequests userId).getD []
    let s1 := { s with userRequests := alSet s.userRequests userId (userList ++ [now]) }
    let s2 := { s1 with globalRequests := s1.globalRequests ++ [now] }
    cleanOldRequests s2 now

/-- `n` successive `record_request` calls for one user at one time. -/
def recordN (s : RLState) (now : ℤ) (userId : String) : Nat → RLState
  | 0 => s
  | n + 1 => record_request (recordN s now userId n) now userId

/-- Number of user `userId` timestamps inside the window ending at `now`. -/
def userInWindowCount (s : RLState) (userId : String) (now : ℤ) : Nat :=
  (((alGet s.userRequests userId).getD []).filter (fun t => now - s.timeWindow < t)).length

/-- Number of global timestamps inside the window ending at `now`. -/
def globalInWindowCount (s : RLState) (now : ℤ) : Nat :=
  (s.globalRequests.filter (fun t => now - s.timeWindow < t)).length

/-- Pruning a stored per-user timestamp list, as an `Option` transformer:
what one user's entry becomes under `_clean_old_requests`. -/
def pruneEntry (window now : ℤ) (ts : List ℤ) : Option (List ℤ) :=
  let kept := ts.filter (fun t => now - window < t)
  if kept.isEmpty then none else some kept

/-- Fresh enabled limiter used by the claim C7 artifacts. -/
def rlFresh : RLState := ⟨true, 5, 60, [], []⟩

/-! ## bot/context_manager.py -/

/-- A `collections.deque(maxlen=cap)` of formatted turns. -/
structure BDeque where
  cap : Nat
  items : List String
deriving DecidableEq

/-- `deque.append` with a `maxlen`: a full deque drops its oldest element. -/
def dequeAppend (d : BDeque) (x : String) : BDeque :=
  ⟨d.cap, takeRight d.cap (d.items ++ [x])⟩

/-- `ContextManager` state: enable flag, current `max_context_length`,
per-user deques, the global deque, per-user activity timestamps and the
fixed TTL (`3600` in the source). -/
structure CtxState where
  enabled : Bool
  maxContextLength : Nat
  userContexts : List (String × BDeque)
  globalContext : BDeque
  contextTimestamps : List (String × ℤ)
  contextTtl : ℤ
deriving DecidableEq

/-- `ContextManager.__init__` for a given enable flag and context length. -/
def CtxState.init (enabled : Bool) (maxLen : Nat) : CtxState :=
  ⟨enabled, maxLen, [], ⟨maxLen, []⟩, [], 3600⟩

/-- `ContextManager.clear_user_context`: drop one user's deque and
timestamp. -/
def clear_user_context (s : CtxState) (username : String) : CtxState :=
  { s with
    userContexts := alErase s.userContexts username,
    contextTimestamps := alErase s.contextTimestamps username }

/-- `ContextManager._cleanup_old_contexts`: clear every user whose last
activity timestamp lies before `now - ttl`. -/
def cleanupOldContexts (s : CtxState) (now : ℤ) : CtxState :=
  let cutoff := now - s.contextTtl
  let toRemove := (s.contextTimestamps.filter (fun p => p.2 < cutoff)).map Prod.fst
  toRemove.foldl clear_user_context s

/-- `ContextManager.add_message`: no-op when disabled; otherwise format the
turn, push it onto the user's deque (created at the current capacity if
missing) and the global deque, refresh the user's timestamp, then run the
TTL cleanup. -/
def add_message (s : CtxState) (now : ℤ) (username message : String) (isBot : Bool) : CtxState :=
  if !s.enabled then s
  else
    let formatted := if isBot then "Assistant: " ++ message else username ++ ": " ++ message
    let d := (alGet s.userContexts username).getD ⟨s.maxContextLength, []⟩
    let s1 := { s with
      userContexts := alSet s.userContexts username (dequeAppend d formatted),
      contextTimestamps := alSet s.contextTimestamps username now,
      globalContext := dequeAppend s.globalContext formatted }
    cleanupOldContexts s1 now

/-- `ContextManager.get_context`: empty string when disabled; otherwise the
user's turns followed by the global turns not already present (the global
pass deduplicates against everything collected so far), joined by newlines.
When the user has no turns the global list is extended verbatim. -/
def get_context (s : CtxState) (username : String) (includeGlobal : Bool) : String :=
  if !s.enabled then ""
  else
    let parts0 : List String :=
      match alGet s.userContexts username with
      | some d => d.items
      | none => []
    let parts :=
      if includeGlobal && !s.globalContext.items.isEmpty then
        if !parts0.isEmpty then
          s.globalContext.items.foldl
            (fun acc msg => if acc.contains msg then acc else acc ++ [msg]) parts0
        else parts0 ++ s.globalContext.items
      else parts0
    String.intercalate "\n" parts

/-- `ContextManager.clear_all_context`: empty all three containers (the
global deque keeps its `maxlen`). -/
def clear_all_context (s : CtxState) : CtxState :=
  { s with
    userContexts := [],
    globalContext := ⟨s.globalContext.cap, []⟩,
    contextTimestamps := [] }

/-- `ContextManager.set_context_length`: store the new capacity and rebuild
every deque as `deque(old_items, maxlen=new)`, keeping the most recent
entries. -/
def set_context_length (s : CtxState) (len : Nat) : CtxState :=
  { s with
    maxContextLength := len,
    userContexts := s.userContexts.map (fun p => (p.1, ⟨len, takeRight len p.2.items⟩)),
    globalContext := ⟨len, takeRight len s.globalContext.items⟩ }

/-- The context-store operations reachable from the bot's dispatch paths. -/
inductive CtxOp where
  | add (now : ℤ) (username message : String) (isBot : Bool)
  | clearUser (username : String)
  | clearAll
  | resize (n : Nat)
deriving DecidableEq

/-- Run one context-store operation. -/
def runCtxOp (s : CtxState) : CtxOp → CtxState
  | .add now username message isBot => add_message s now username message isBot
  | .clearUser username => clear_user_context s username
  | .clearAll => clear_all_context s
  | .resize n => set_context_length s n

/-- Run a sequence of context-store operations. -/
def runCtxOps (s : CtxState) (ops : List CtxOp) : CtxState :=
  ops.foldl runCtxOp s

/-- Well-formedness of one deque against the configured capacity. -/
def dequeWf (m : Nat) (d : BDeque) : Prop :=
  d.cap = m ∧ d.items.length ≤ m

/-- The bounded-length invariant of the context store: every per-user deque
and the global deque carry the configured capacity and respect it. -/
def ctxWf (s : CtxState) : Prop :=
  (∀ p ∈ s.userContexts, dequeWf s.maxContextLength p.2)
  ∧ dequeWf s.maxContextLength s.globalContext

/-- Appending a list of user turns (claim C4's experiment), all at time 0. -/
def appendTurns (s : CtxState) (u : String) (msgs : List String) : CtxState :=
  msgs.foldl (fun acc msg => add_message acc 0 u msg false) s

/-! ## utils/helpers.py — command parsing, and bot/command_handler.py -/

/-- `helpers.is_bot_command`: the trigger occurs and non-whitespace text
follows it. -/
def is_bot_command (message trigger : String) : Bool :=
  if message.data.isEmpty || trigger.data.isEmpty then false
  else
    let pos := pyFind (pyLower message.data) (pyLower trigger.data)
    if pos = -1 then false
    else !(pyStrip (message.data.drop (pos.toNat + trigger.data.length))).isEmpty

/-- The dictionary `helpers.parse_command` returns. -/
structure ParsedCommand where
  command : String
  args : String
  fullMessage : String
deriving DecidableEq

/-- `helpers.parse_command`: text after the trigger, stripped, split at the
first whitespace run (`split(maxsplit=1)`) into a case-folded command word
and an untouched remainder. (The guard above guarantees the split is
nonempty, so the `parts[0]` read cannot fail.) -/
def parse_command (message trigger : String) : Option ParsedCommand :=
  if !is_bot_command message trigger then none
  else
    let pos := pyFind (pyLower message.data) (pyLower trigger.data)
    if pos = -1 then none
    else
      let afterTrigger := pyStrip (message.data.drop (pos.toNat + trigger.data.length))
      let cmdTok := afterTrigger.takeWhile (fun c => !pyIsSpace c)
      let rest := (afterTrigger.dropWhile (fun c => !pyIsSpace c)).dropWhile pyIsSpace
      some ⟨String.mk (pyLower cmdTok), String.mk rest, message⟩

/-- The fixed registry `CommandHandler.__init__` installs. -/
def commandRegistry : List String :=
  ["help", "model", "models", "stats", "context", "clear", "ping", "info", "reset"]

/-- `CommandHandler.handle_command`. The nine handlers perform I/O against
collaborators, so their outcomes are abstracted by `handlerOutcome`
(username, command, args ↦ reply or raised-exception text); the
`try`/`except` around the handler call is the `Except` match. -/
def handle_command (username message trigger : String)
    (handlerOutcome : String → String → String → Except String String) : Option String :=
  match parse_command message trigger with
  | none => none
  | some p =>
    if !commandRegistry.contains p.command then
      some ("Unknown command: " ++ p.command ++ ". Type \x27" ++ trigger
        ++ " help\x27 for available commands.")
    else
      match handlerOutcome username p.command p.args with
      | .ok r => some r
      | .error e => some ("Error executing command: " ++ e)

/-! ## bot/message_processor.py -/

/-- Configuration fields `MessageProcessor` reads. -/
structure BotConfig where
  trigger : String
  botUsername : String
  model : String
  maxResponseLength : Nat
deriving DecidableEq

/-- One call to `ollama_client.generate_response` with its arguments. -/
structure GenCall where
  prompt : String
  context : String
  model : String
deriving DecidableEq

/-- Outbound sends of `MessageProcessor` (`chat_client.send_message`),
recorded semantically rather than as the formatted Python f-strings. -/
inductive Outbound where
  | rateLimitNotice (userRequests userLimit : Nat) (timeWindow : ℤ)
  | reply (text : String)
  | apologyNoResponse
  | apologyError
deriving DecidableEq

/-- The mutable state `MessageProcessor.process_message` touches, plus a
log of the generation calls it issues and the messages it sends. -/
structure ProcState where
  rl : RLState
  ctx : CtxState
  processingTasks : List String
  genCalls : List GenCall
  outbound : List Outbound
deriving DecidableEq

/-- `RateLimiter.get_user_stats` (the fields `_send_rate_limit_message`
uses): prunes, then reports the user's surviving count, the limit and the
window. The read uses `.get(user_id, [])`, so no entry is created. -/
def get_user_stats (s : RLState) (now : ℤ) (userId : String) : (Nat × Nat × ℤ) × RLState :=
  let s1 := cleanOldRequests s now
  ((((alGet s1.userRequests userId).getD []).length, s.maxRequests, s.timeWindow), s1)

/-- `MessageProcessor._process_ai_request`: build the task id from the
identity and the event-loop time, skip under the duplication guard, record
the generation call (after the interruptible delay, which has no state
effect), then handle the backend outcome: a reply is truncated, appended to
context as a bot turn and sent; `None`/empty replies and raised exceptions
each send a canned apology; the task id is discarded in `finally`. -/
def process_ai_request (cfg : BotConfig) (st : ProcState) (now : ℤ)
    (loopTime username prompt : String) (genResult : Except Unit (Option String)) : ProcState :=
  let taskId := username ++ "_" ++ loopTime
  if st.processingTasks.contains taskId then st
  else
    let tasks1 := st.processingTasks ++ [taskId]
    let context := get_context st.ctx username true
    let st1 := { st with
      processingTasks := tasks1,
      genCalls := st.genCalls ++ [GenCall.mk prompt context cfg.model] }
    let st2 :=
      match genResult with
      | .error _ => { st1 with outbound := st1.outbound ++ [Outbound.apologyError] }
      | .ok none => { st1 with outbound := st1.outbound ++ [Outbound.apologyNoResponse] }
      | .ok (some r) =>
        if r = "" then { st1 with outbound := st1.outbound ++ [Outbound.apologyNoResponse] }
        else
          let resp := truncate_response r cfg.maxResponseLength
          { st1 with
            ctx := add_message st1.ctx now cfg.botUsername resp true,
            outbound := st1.outbound ++ [Outbound.reply resp] }
    { st2 with processingTasks := st2.processingTasks.filter (fun x => !(x == taskId)) }

/-- `MessageProcessor.process_message`: reject an empty identity, append the
content to context unconditionally, require the trigger, derive the prompt,
check admission (sending a rate-limit notice on rejection), record the
request and run the generation task. -/
def process_message (cfg : BotConfig) (st : ProcState) (now : ℤ) (loopTime : String)
    (fullMessage username content : String)
    (genResult : Except Unit (Option String)) : ProcState :=
  if username = "" then st
  else
    let st1 := { st with ctx := add_message st.ctx now username content false }
    if !is_bot_trigger content cfg.trigger then st1
    else
      match extract_prompt cfg.trigger content with
      | none => st1
      | some prompt =>
        let res := is_allowed st1.rl now username
        let st2 := { st1 with rl := res.2 }
        if !res.1 then
          let stats := get_user_stats st2.rl now username
          { st2 with
            rl := stats.2,
            outbound := st2.outbound
              ++ [Outbound.rateLimitNotice stats.1.1 stats.1.2.1 stats.1.2.2] }
        else
          let st3 := { st2 with rl := record_request st2.rl now username }
          process_ai_request cfg st3 now loopTime username prompt genResult

/-! ## bot/chat_client.py — reconnection state machine

`_handle_connection_error` and `_reconnect` are `async`; their state effects
are embedded as step functions. `pendingReconnect` records that a
`_reconnect` task has been scheduled via `asyncio.create_task` and not yet
finished; `tasksCreated` counts every `create_task(self._reconnect())` call;
`connectOk` abstracts the outcome of one `self.connect()` attempt. -/

/-- The connection fields the reconnection logic touches. -/
structure ConnState where
  isConnected : Bool
  shouldStop : Bool
  reconnectAttempts : Nat
  pendingReconnect : Bool
  tasksCreated : Nat
deriving DecidableEq

/-- `NakenChatClient._handle_connection_error`: drop the connection; bail
out when shutting down or when `reconnect_attempts` has reached
`max_reconnect_attempts`; otherwise increment the counter and schedule a
`_reconnect` task. -/
def handle_connection_error (maxAttempts : Nat) (s : ConnState) : ConnState :=
  let s1 := { s with isConnected := false }
  if s1.shouldStop then s1
  else if maxAttempts ≤ s1.reconnectAttempts then s1
  else { s1 with
    reconnectAttempts := s1.reconnectAttempts + 1,
    pendingReconnect := true,
    tasksCreated := s1.tasksCreated + 1 }

/-- One run of a scheduled `NakenChatClient._reconnect` task: after the
delay, bail out under shutdown; on a successful `connect()` the connection
is re-established and the attempt counter reset (inside `connect`); on a
failed `connect()` another `_reconnect` task is scheduled — without
consulting `reconnect_attempts` or `max_reconnect_attempts`. -/
def reconnect_step (connectOk : Bool) (s : ConnState) : ConnState :=
  if s.shouldStop then { s with pendingReconnect := false }
  else if connectOk then
    { s with isConnected := true, reconnectAttempts := 0, pendingReconnect := false }
  else { s with pendingReconnect := true, tasksCreated := s.tasksCreated + 1 }

/-! # Theorems -/

/-- The source's separator-loop body and the amended claim's single-separator
removal coincide. -/
theorem stripSepStep_eq_stripLeadSep (l : List Char) (sep : Char) :
    stripSepStep l sep = stripLeadSep sep l := by
  cases l <;> simp [stripSepStep, stripLeadSep]

/-- Claim C6 (amended): prompt derivation takes the trailing substring after
the case-insensitive trigger occurrence, strips whitespace, then removes at
most one leading occurrence of each separator in the fixed order
`':'`, `'-'`, `'>'`, `'|'` (stripping whitespace after each removal), and
aborts with no prompt when the remainder is empty; moreover a derived
prompt is never the empty string. -/
theorem claim_c6_prompt_separators :
    (∀ trigger content : String,
      extract_prompt trigger content = extractPromptEachSep trigger content)
    ∧ (∀ trigger content p : String,
        extract_prompt trigger content = some p → p.data ≠ []) := by
  constructor
  · intro trigger content
    unfold extract_prompt extractPromptEachSep
    by_cases hc : content.data.isEmpty
    · simp [hc]
    · simp only [hc, if_false]
      cases h : findSub (pyLower content.data) (pyLower trigger.data) with
      | none => simp [pyFind, h]
      | some i =>
        have hne : ¬ ((i : Int) = -1) := by omega
        simp [pyFind, h, hne, List.foldl, stripSepStep_eq_stripLeadSep]
  · intro trigger content p hp
    simp only [extract_prompt] at hp
    split at hp
    · exact absurd hp (by simp)
    · split at hp
      · exact absurd hp (by simp)
      · split at hp
        · exact absurd hp (by simp)
        · rename_i hne
          have hmk := Option.some.inj hp
          intro hcontra
          have hdata := congrArg String.data hmk
          rw [hcontra] at hdata
          dsimp only at hdata
          apply hne
          simpa using hdata

/-- Claim C6 counterexample: for trigger `"Bot"` and content `"Bot:-hi"` the
code strips both the `':'` and the `'-'`, so the derived prompt is `"hi"`,
not the `"-hi"` that removing at most one leading separator would give. -/
theorem claim_c6_counterexample :
    extract_prompt "Bot" "Bot:-hi" = some "hi"
    ∧ extractPromptOneSep "Bot" "Bot:-hi" = some "-hi"
    ∧ some ("hi" : String) ≠ some ("-hi" : String) := by
  refine ⟨by decide, by decide, by decide⟩

/-- Witness for claim C6 at trigger `"Bot"`, content `"Bot: hi"`. -/
theorem claim_c6_prompt_separators_witness :
    extract_prompt "Bot" "Bot: hi" = extractPromptEachSep "Bot" "Bot: hi"
    ∧ ("hi" : String).data ≠ [] :=
  ⟨claim_c6_prompt_separators.1 "Bot" "Bot: hi",
   claim_c6_prompt_separators.2 "Bot" "Bot: hi" "hi" (by decide)⟩

/-- Claim C3 (amended): for `max ≥ 3`, every over-long response is truncated
exactly as described — first `max−3` characters, backward space search, the
word-boundary cut accepted only when the space sits strictly after position
`0.8 × max`, else a hard cut at `max−3`, with `"..."` appended in either
case — and the concrete example truncates to length at most 20 ending in
`"..."`. -/
theorem claim_c3_truncation :
    (∀ (r : String) (maxLength : Nat), 3 ≤ maxLength → maxLength < r.data.length →
      truncate_response r maxLength = truncateWordBoundary r maxLength)
    ∧ (truncate_response "This is a very long response that should be truncated" 20).data.length ≤ 20
    ∧ "...".data.isSuffixOf
        (truncate_response "This is a very long response that should be truncated" 20).data = true := by
  refine ⟨?_, by decide, by decide⟩
  intro r maxLength h3 hlen
  unfold truncate_response truncateWordBoundary
  have h1 : ¬ (r.data.length ≤ maxLength) := by omega
  rw [if_neg h1, if_neg h1]
  have hslice : pySliceTo r.data ((maxLength : Int) - 3) = r.data.take (maxLength - 3) := by
    unfold pySliceTo
    rw [if_neg (by omega)]
    congr 1
    omega
  rw [hslice]
  cases hfind : lastIdxOf ' ' (r.data.take (maxLength - 3)) with
  | none =>
    simp only [pyRFindChar, hfind]
    rw [if_neg (by omega)]
  | some i =>
    simp only [pyRFindChar, hfind]
    by_cases hcut : 4 * maxLength < 5 * i
    · rw [if_pos (show 5 * (i : Int) > 4 * (maxLength : Int) by omega), if_pos hcut]
      have hsl2 : pySliceTo (List.take (maxLength - 3) r.data) (i : Int)
          = List.take i (List.take (maxLength - 3) r.data) := by
        unfold pySliceTo
        rw [if_neg (by omega)]
        simp
      rw [hsl2]
    · rw [if_neg (show ¬ (5 * (i : Int) > 4 * (maxLength : Int)) by omega), if_neg hcut]

/-- Claim C3 counterexample: with `max = 20` and a response whose last space
in the first 17 characters sits exactly at position `16 = 0.8 × 20`, the code
hard-cuts (`16 > 16.0` is false), while accepting the cut at-or-after
`0.8 × max` would give a different, shorter result. -/
theorem claim_c3_counterexample :
    truncate_response "aaaaaaaaaaaaaaaa bcdefg" 20 = "aaaaaaaaaaaaaaaa ..."
    ∧ truncateClaimed "aaaaaaaaaaaaaaaa bcdefg" 20 = "aaaaaaaaaaaaaaaa..."
    ∧ ("aaaaaaaaaaaaaaaa ..." : String) ≠ "aaaaaaaaaaaaaaaa..." := by
  refine ⟨by decide, by decide, by decide⟩

/-- Witness for claim C3 at the concrete 53-character response and `max = 20`. -/
theorem claim_c3_truncation_witness :
    truncate_response "This is a very long response that should be truncated" 20
      = truncateWordBoundary "This is a very long response that should be truncated" 20 :=
  claim_c3_truncation.1 "This is a very long response that should be truncated" 20
    (by decide) (by decide)

/-! ## Rate-limiter lemmas -/

/-- Lookup of an absent key fails. -/
theorem alGet_eq_none_of_not_mem (l : List (String × α)) (v : String)
    (hv : v ∉ l.map Prod.fst) : alGet l v = none := by
  unfold alGet
  rw [List.find?_eq_none.2]
  · rfl
  · intro x hx hbeq
    exact hv (List.mem_map.2 ⟨x, hx, by simpa using hbeq⟩)

/-- Lookup after appending a fresh key at the end: unchanged for other keys. -/
theorem alGet_append_single (l : List (String × α)) (k v : String) (x : α)
    (hne : v ≠ k) : alGet (l ++ [(k, x)]) v = alGet l v := by
  unfold alGet
  rw [List.find?_append]
  cases h : l.find? (fun p => p.1 == k) <;>
    cases h2 : l.find? (fun p => p.1 == v) <;>
      simp_all [Option.orElse, List.find?, show (k == v) = false by simpa using fun h => hne h.symm]

/-- Lookup hits a matching head entry. -/
theorem alGet_cons_hit (k : String) (x : α) (l : List (String × α)) (v : String)
    (h : (k == v) = true) : alGet ((k, x) :: l) v = some x := by
  simp [alGet, List.find?, h]

/-- Lookup skips a non-matching head entry. -/
theorem alGet_cons_miss (k : String) (x : α) (l : List (String × α)) (v : String)
    (h : (k == v) = false) : alGet ((k, x) :: l) v = alGet l v := by
  simp [alGet, List.find?, h]

/-- `pruneEntry`, with its local binding unfolded. -/
theorem pruneEntry_def (window now : ℤ) (ts : List ℤ) :
    pruneEntry window now ts
      = if (ts.filter (fun t => now - window < t)).isEmpty then none
        else some (ts.filter (fun t => now - window < t)) := rfl

/-- How `_clean_old_requests` acts on a single lookup, for duplicate-free
keys (a Python `dict` invariant). -/
theorem alGet_cleanUsers (l : List (String × List ℤ)) (window now : ℤ)
    (hnd : (l.map Prod.fst).Nodup) (v : String) :
    alGet (l.filterMap (fun p =>
      let kept := p.2.filter (fun t => now - window < t)
      if kept.isEmpty then none else some (p.1, kept))) v
    = (alGet l v).bind (pruneEntry window now) := by
  induction l with
  | nil => simp [alGet]
  | cons a l ih =>
    obtain ⟨k, ts⟩ := a
    rw [List.map_cons, List.nodup_cons] at hnd
    obtain ⟨ha, hnd'⟩ := hnd
    rw [List.filterMap_cons]
    dsimp only
    by_cases hv : k = v
    · subst hv
      rw [alGet_cons_hit k ts l k (by simp), Option.some_bind, pruneEntry_def]
      by_cases hke : (ts.filter (fun t => now - window < t)).isEmpty
      · rw [if_pos hke, if_pos hke]
        dsimp only
        rw [ih hnd', alGet_eq_none_of_not_mem l k ha]
        rfl
      · rw [if_neg hke, if_neg hke]
        dsimp only
        exact alGet_cons_hit k _ _ k (by simp)
    · have hbeq : (k == v) = false := by simpa using hv
      rw [alGet_cons_miss k ts l v hbeq]
      by_cases hke : (ts.filter (fun t => now - window < t)).isEmpty
      · rw [if_pos hke]
        dsimp only
        exact ih hnd'
      · rw [if_neg hke]
        dsimp only
        rw [alGet_cons_miss k _ _ v hbeq]
        exact ih hnd'

/-- Pruned lookup, flattened to a plain filter of the stored list. -/
theorem bind_pruneEntry_getD (o : Option (List ℤ)) (window now : ℤ) :
    (o.bind (pruneEntry window now)).getD []
      = (o.getD []).filter (fun t => now - window < t) := by
  cases o with
  | none => rfl
  | some ts =>
    rw [Option.some_bind, pruneEntry_def]
    by_cases hke : (ts.filter (fun t => now - window < t)).isEmpty
    · rw [if_pos hke]
      exact (List.isEmpty_iff.mp hke).symm
    · rw [if_neg hke]
      rfl

/-- The state `is_allowed` leaves behind, in closed form (enabled case). -/
theorem is_allowed_snd (s : RLState) (now : ℤ) (u : String)
    (h : s.enabled = true) :
    (is_allowed s now u).2
      = (if (alGet (cleanOldRequests s now).userRequests u).isSome
          then cleanOldRequests s now
          else { cleanOldRequests s now with
                  userRequests := (cleanOldRequests s now).userRequests ++ [(u, [])] }) := by
  unfold is_allowed
  rw [h]
  rw [if_neg (by simp)]
  dsimp only
  split
  · rfl
  · split <;> split <;> rfl

/-- The decision `is_allowed` returns, in closed form (enabled case):
both in-window counts strictly below their bounds. -/
theorem is_allowed_fst (s : RLState) (now : ℤ) (u : String)
    (h : s.enabled = true) :
    (is_allowed s now u).1
      = (decide (((alGet (cleanOldRequests s now).userRequests u).getD []).length < s.maxRequests)
        && decide ((cleanOldRequests s now).globalRequests.length < s.maxRequests * 2)) := by
  unfold is_allowed
  rw [h]
  rw [if_neg (by simp)]
  dsimp only
  have hg : (if (alGet (cleanOldRequests s now).userRequests u).isSome
        then cleanOldRequests s now
        else { cleanOldRequests s now with
                userRequests := (cleanOldRequests s now).userRequests ++ [(u, [])] }).globalRequests
      = (cleanOldRequests s now).globalRequests := by
    split <;> rfl
  rw [hg]
  split_ifs with h1 h2 <;> simp <;> omega

/-- A window filter keeps every timestamp recorded at the query time itself,
provided the window has positive width. -/
theorem filter_window_replicate (w t : ℤ) (hw : 0 < w) (k : Nat) :
    (List.replicate k t).filter (fun x => t - w < x) = List.replicate k t := by
  apply List.filter_eq_self.mpr
  intro a ha
  rw [List.mem_replicate] at ha
  rw [ha.2]
  exact decide_eq_true (sub_lt_self t hw)

/-- State after `n` `record_request` calls for user `u` at one time `t`,
starting from a fresh enabled limiter. -/
theorem recordN_state (maxR : Nat) (w t : ℤ) (u : String) (hw : 0 < w) :
    ∀ n : Nat, recordN ⟨true, maxR, w, [], []⟩ t u n
      = ⟨true, maxR, w,
          (if n = 0 then [] else [(u, List.replicate n t)]),
          List.replicate n t⟩ := by
  intro n
  induction n with
  | zero => rfl
  | succ n ih =>
    rw [recordN, ih]
    unfold record_request
    rw [if_neg (by simp)]
    dsimp only
    cases n with
    | zero =>
      rw [if_pos rfl]
      unfold cleanOldRequests alSet alGet
      dsimp only
      simp only [List.find?_nil, Option.map_none', Option.isSome_none, Bool.false_eq_true,
        if_false, Option.getD_none, List.nil_append, List.replicate_zero,
        List.filterMap_cons, List.filterMap_nil]
      have h1 : List.filter (fun x => decide (t - w < x)) [t] = [t] := by
        simpa using filter_window_replicate w t hw 1
      rw [h1]
      rfl
    | succ m =>
      rw [if_neg (by simp)]
      have hget : alGet [(u, List.replicate (m + 1) t)] u = some (List.replicate (m + 1) t) :=
        alGet_cons_hit u _ [] u (by simp)
      rw [hget]
      have hset : alSet [(u, List.replicate (m + 1) t)] u
            ((some (List.replicate (m + 1) t)).getD [] ++ [t])
          = [(u, List.replicate (m + 2) t)] := by
        unfold alSet
        rw [if_pos (by simp [List.find?])]
        simp only [List.map_cons, List.map_nil, Option.getD_some]
        rw [if_pos (by simp)]
        rw [← List.replicate_succ' (m + 1) t]
      rw [hset]
      unfold cleanOldRequests
      dsimp only
      rw [← List.replicate_succ' (m + 1) t]
      simp only [List.filterMap_cons, List.filterMap_nil]
      rw [filter_window_replicate w t hw (m + 2), List.isEmpty_replicate]
      simp only [show (decide (m + 2 = 0)) = false from by simp, Bool.false_eq_true, if_false]
      simp

/-- Claim C2: with rate limiting enabled, `is_allowed` admits exactly when
the identity's in-window count is below `max_requests` and the global
in-window count is below twice it; and from a fresh limiter, `max_requests`
`record_request` calls inside one window block the user at that time, while
a query after the window has elapsed admits again. -/
theorem claim_c2_rate_limiting :
    (∀ (s : RLState) (u : String) (now : ℤ),
      s.enabled = true → (s.userRequests.map Prod.fst).Nodup →
      ((is_allowed s now u).1 = true ↔
        (userInWindowCount s u now < s.maxRequests
          ∧ globalInWindowCount s now < 2 * s.maxRequests)))
    ∧ (∀ (maxR : Nat) (w t now2 : ℤ) (u : String),
        0 < maxR → 0 < w → t + w ≤ now2 →
        (is_allowed (recordN ⟨true, maxR, w, [], []⟩ t u maxR) t u).1 = false
        ∧ (is_allowed (recordN ⟨true, maxR, w, [], []⟩ t u maxR) now2 u).1 = true) := by
  constructor
  · intro s u now h hnd
    rw [is_allowed_fst s now u h]
    have hclean : alGet (cleanOldRequests s now).userRequests u
        = (alGet s.userRequests u).bind (pruneEntry s.timeWindow now) := by
      unfold cleanOldRequests
      dsimp only
      exact alGet_cleanUsers s.userRequests s.timeWindow now hnd u
    rw [hclean, bind_pruneEntry_getD]
    unfold userInWindowCount globalInWindowCount cleanOldRequests
    dsimp only
    simp only [Bool.and_eq_true, decide_eq_true_eq]
    omega
  · intro maxR w t now2 u hmax hw helapsed
    rw [recordN_state maxR w t u hw maxR, if_neg (by omega)]
    have hrep : List.filter (fun x => decide (t - w < x)) (List.replicate maxR t)
        = List.replicate maxR t := filter_window_replicate w t hw maxR
    constructor
    · rw [is_allowed_fst _ t u rfl]
      have hcl : cleanOldRequests ⟨true, maxR, w, [(u, List.replicate maxR t)],
            List.replicate maxR t⟩ t
          = ⟨true, maxR, w, [(u, List.replicate maxR t)], List.replicate maxR t⟩ := by
        unfold cleanOldRequests
        dsimp only
        simp only [List.filterMap_cons, List.filterMap_nil]
        rw [hrep, List.isEmpty_replicate]
        simp only [show (decide (maxR = 0)) = false from by simp [Nat.pos_iff_ne_zero.mp hmax],
          Bool.false_eq_true, if_false]
      rw [hcl]
      rw [alGet_cons_hit u _ [] u (by simp)]
      simp
    · rw [is_allowed_fst _ now2 u rfl]
      have hdrop : List.filter (fun x => decide (now2 - w < x)) (List.replicate maxR t)
          = [] := by
        apply List.filter_eq_nil_iff.mpr
        intro a ha
        rw [List.mem_replicate] at ha
        rw [ha.2]
        simp only [decide_eq_true_eq]
        intro hcontra
        linarith
      have hcl : cleanOldRequests ⟨true, maxR, w, [(u, List.replicate maxR t)],
            List.replicate maxR t⟩ now2
          = ⟨true, maxR, w, [], []⟩ := by
        unfold cleanOldRequests
        dsimp only
        simp only [List.filterMap_cons, List.filterMap_nil]
        rw [hdrop]
        simp only [List.isEmpty_nil, if_true]
      rw [hcl]
      simp only [alGet, List.find?_nil, Option.map_none', Option.getD_none, List.length_nil]
      simp [hmax]

/-- Witness for claim C2: `max_requests = 2`, window `60`, two records at
time `0`, queries at times `0` and `60`. -/
theorem claim_c2_rate_limiting_witness :
    ((is_allowed (⟨true, 2, 60, [("u", [0]), ("v", [0])], [0, 0]⟩ : RLState) 0 "u").1 = true ↔
      (userInWindowCount ⟨true, 2, 60, [("u", [0]), ("v", [0])], [0, 0]⟩ "u" 0 < 2
        ∧ globalInWindowCount ⟨true, 2, 60, [("u", [0]), ("v", [0])], [0, 0]⟩ 0 < 2 * 2))
    ∧ ((is_allowed (recordN ⟨true, 2, 60, [], []⟩ 0 "u" 2) 0 "u").1 = false
      ∧ (is_allowed (recordN ⟨true, 2, 60, [], []⟩ 0 "u" 2) 60 "u").1 = true) :=
  ⟨claim_c2_rate_limiting.1 ⟨true, 2, 60, [("u", [0]), ("v", [0])], [0, 0]⟩ "u" 0 rfl
      (by decide),
   claim_c2_rate_limiting.2 2 60 0 60 "u" (by decide) (by decide) (by decide)⟩

/-- Claim C7 (amended): with rate limiting enabled, `is_allowed` changes
state only by pruning expired timestamps — except that, through the
`defaultdict` read, it installs an empty entry for the queried identity when
none survives pruning; all other identities and the global list are purely
pruned, the configuration fields are untouched, and a disabled limiter is
left entirely unchanged. -/
theorem claim_c7_query_effect :
    (∀ (s : RLState) (u : String) (now : ℤ),
      s.enabled = false → (is_allowed s now u).2 = s)
    ∧ (∀ (s : RLState) (u : String) (now : ℤ),
        s.enabled = true → (s.userRequests.map Prod.fst).Nodup →
        ((is_allowed s now u).2.enabled = s.enabled
          ∧ (is_allowed s now u).2.maxRequests = s.maxRequests
          ∧ (is_allowed s now u).2.timeWindow = s.timeWindow
          ∧ (is_allowed s now u).2.globalRequests
              = s.globalRequests.filter (fun x => now - s.timeWindow < x)
          ∧ (∀ v, v ≠ u → alGet (is_allowed s now u).2.userRequests v
              = (alGet s.userRequests v).bind (pruneEntry s.timeWindow now))
          ∧ alGet (is_allowed s now u).2.userRequests u
              = some (((alGet s.userRequests u).getD []).filter
                  (fun x => now - s.timeWindow < x)))) := by
  constructor
  · intro s u now h
    unfold is_allowed
    rw [h]
    rfl
  · intro s u now h hnd
    rw [is_allowed_snd s now u h]
    have hclean : ∀ v, alGet (cleanOldRequests s now).userRequests v
        = (alGet s.userRequests v).bind (pruneEntry s.timeWindow now) := by
      intro v
      unfold cleanOldRequests
      dsimp only
      exact alGet_cleanUsers s.userRequests s.timeWindow now hnd v
    by_cases hsome : (alGet (cleanOldRequests s now).userRequests u).isSome
    · rw [if_pos hsome]
      refine ⟨rfl, rfl, rfl, rfl, fun v _ => hclean v, ?_⟩
      rw [hclean u] at hsome ⊢
      cases hget : alGet s.userRequests u with
      | none => rw [hget] at hsome; simp at hsome
      | some ts =>
        rw [hget] at hsome
        rw [Option.some_bind, pruneEntry_def] at hsome ⊢
        simp only [Option.getD_some]
        by_cases hke : (ts.filter (fun x => now - s.timeWindow < x)).isEmpty
        · rw [if_pos hke] at hsome; simp at hsome
        · rw [if_neg hke]
    · rw [if_neg hsome]
      refine ⟨rfl, rfl, rfl, rfl, fun v hv => ?_, ?_⟩
      · dsimp only
        rw [alGet_append_single _ u v [] hv, hclean v]
      · dsimp only
        have hnone : alGet (cleanOldRequests s now).userRequests u = none := by
          cases hg : alGet (cleanOldRequests s now).userRequests u with
          | none => rfl
          | some x => rw [hg] at hsome; simp at hsome
        have happ : alGet ((cleanOldRequests s now).userRequests ++ [(u, [])]) u = some [] := by
          unfold alGet at hnone ⊢
          rw [List.find?_append]
          cases hf : (cleanOldRequests s now).userRequests.find? (fun p => p.1 == u) with
          | none => simp [List.find?]
          | some x => rw [hf] at hnone; simp at hnone
        rw [happ]
        rw [hclean u] at hnone
        cases hget : alGet s.userRequests u with
        | none => simp
        | some ts =>
          rw [hget, Option.some_bind, pruneEntry_def] at hnone
          by_cases hke : (ts.filter (fun x => now - s.timeWindow < x)).isEmpty
          · simp only [Option.getD_some]
            rw [List.isEmpty_iff] at hke
            rw [hke]
          · rw [if_neg hke] at hnone
            simp at hnone

/-- Claim C7 counterexample: querying an unseen identity on a fresh enabled
limiter leaves an (empty) entry for it — the `defaultdict` side effect —
contradicting "querying an unseen identity leaves it without an entry". -/
theorem claim_c7_counterexample :
    alGet rlFresh.userRequests "alice" = none
    ∧ (is_allowed rlFresh 0 "alice").2.userRequests = [("alice", [])] := by
  refine ⟨rfl, by decide⟩

/-- Witness for claim C7: a disabled limiter and an enabled two-user state. -/
theorem claim_c7_query_effect_witness :
    (is_allowed (⟨false, 5, 60, [("w", [3])], [3]⟩ : RLState) 0 "w").2
        = ⟨false, 5, 60, [("w", [3])], [3]⟩
    ∧ alGet (is_allowed (⟨true, 5, 60, [("w", [3])], [3]⟩ : RLState) 0 "w").2.userRequests "w"
        = some (((alGet (⟨true, 5, 60, [("w", [3])], [3]⟩ : RLState).userRequests "w").getD
            []).filter (fun x => (0 : ℤ) - (⟨true, 5, 60, [("w", [3])], [3]⟩ : RLState).timeWindow < x)) :=
  ⟨claim_c7_query_effect.1 ⟨false, 5, 60, [("w", [3])], [3]⟩ "w" 0 rfl,
   (claim_c7_query_effect.2 ⟨true, 5, 60, [("w", [3])], [3]⟩ "w" 0 rfl
      (by decide)).2.2.2.2.2⟩

/-! ## Context-store lemmas -/

/-- A deque retains at most its capacity. -/
theorem takeRight_length_le (n : Nat) (l : List α) : (takeRight n l).length ≤ n := by
  unfold takeRight
  rw [List.length_drop]
  omega

/-- Retaining up to `n` of a list already no longer than `n` keeps it. -/
theorem takeRight_eq_self (n : Nat) (l : List α) (h : l.length ≤ n) :
    takeRight n l = l := by
  unfold takeRight
  rw [Nat.sub_eq_zero_of_le h, List.drop_zero]

/-- `takeRight` is idempotent. -/
theorem takeRight_idem (n : Nat) (l : List α) :
    takeRight n (takeRight n l) = takeRight n l :=
  takeRight_eq_self n _ (takeRight_length_le n l)

/-- `takeRight` through a reversal. -/
theorem takeRight_eq_reverse_take (n : Nat) (l : List α) :
    takeRight n l = (l.reverse.take n).reverse := by
  unfold takeRight
  rw [← List.reverse_reverse (l.drop (l.length - n))]
  congr 1
  rw [List.reverse_drop]
  by_cases h : n ≤ l.length
  · rw [show l.length - (l.length - n) = n by omega]
  · rw [show l.length - (l.length - n) = l.length by omega]
    rw [List.take_of_length_le (by rw [List.length_reverse]),
        List.take_of_length_le (by rw [List.length_reverse]; omega)]

/-- Only the last `n` elements before an append matter for `takeRight n`. -/
theorem takeRight_append_absorb (n : Nat) (xs ys : List α) :
    takeRight n (takeRight n xs ++ ys) = takeRight n (xs ++ ys) := by
  rw [takeRight_eq_reverse_take n xs, takeRight_eq_reverse_take, takeRight_eq_reverse_take]
  rw [List.reverse_append, List.reverse_reverse, List.reverse_append]
  congr 1
  rw [List.take_append_eq_append_take, List.take_append_eq_append_take]
  congr 1
  rw [List.take_take]
  congr 1
  omega

/-- Membership after a dict assignment. -/
theorem alSet_mem {l : List (String × α)} {k : String} {v : α} {q : String × α}
    (h : q ∈ alSet l k v) : q = (k, v) ∨ q ∈ l := by
  unfold alSet at h
  split at h
  · rcases List.mem_map.1 h with ⟨p, hp, heq⟩
    by_cases hk : (p.1 == k) = true
    · rw [if_pos hk] at heq
      exact Or.inl heq.symm
    · rw [if_neg hk] at heq
      exact Or.inr (heq ▸ hp)
  · rcases List.mem_append.1 h with hl | hr
    · exact Or.inr hl
    · exact Or.inl (by simpa using hr)

/-- A successful dict lookup returns a stored entry. -/
theorem alGet_mem {l : List (String × α)} {k : String} {x : α}
    (h : alGet l k = some x) : (k, x) ∈ l := by
  unfold alGet at h
  cases hf : l.find? (fun p => p.1 == k) with
  | none => rw [hf] at h; simp at h
  | some p =>
    rw [hf] at h
    have hp := List.mem_of_find?_eq_some hf
    have hk := List.find?_some hf
    simp only [Option.map_some', Option.some.injEq] at h
    have : p = (k, x) := by
      cases p
      simp only [beq_iff_eq] at hk
      simp_all
    exact this ▸ hp

/-- A deque append respects well-formedness at the same capacity. -/
theorem dequeAppend_wf (m : Nat) (d : BDeque) (x : String) (h : d.cap = m) :
    dequeWf m (dequeAppend d x) := by
  refine ⟨h, ?_⟩
  show (takeRight d.cap (d.items ++ [x])).length ≤ m
  calc (takeRight d.cap (d.items ++ [x])).length ≤ d.cap := takeRight_length_le _ _
    _ = m := h

/-- `clear_user_context` preserves the bounded-context invariant. -/
theorem ctxWf_clear_user (s : CtxState) (u : String) (h : ctxWf s) :
    ctxWf (clear_user_context s u) := by
  obtain ⟨hu, hg⟩ := h
  refine ⟨?_, hg⟩
  intro p hp
  exact hu p (List.mem_of_mem_filter hp)

/-- `_cleanup_old_contexts` (any removal order) preserves the invariant. -/
theorem ctxWf_foldl_clear (l : List String) :
    ∀ s : CtxState, ctxWf s → ctxWf (l.foldl clear_user_context s) := by
  induction l with
  | nil => intro s h; exact h
  | cons a l ih =>
    intro s h
    exact ih (clear_user_context s a) (ctxWf_clear_user s a h)

/-- `add_message` preserves the bounded-context invariant. -/
theorem ctxWf_add (s : CtxState) (now : ℤ) (u msg : String) (b : Bool)
    (h : ctxWf s) : ctxWf (add_message s now u msg b) := by
  unfold add_message
  by_cases he : s.enabled
  · rw [if_neg (by simp [he])]
    dsimp only
    unfold cleanupOldContexts
    apply ctxWf_foldl_clear
    obtain ⟨hu, hg⟩ := h
    constructor
    · intro p hp
      rcases alSet_mem hp with heq | hmem
      · subst heq
        apply dequeAppend_wf
        cases hget : alGet s.userContexts u with
        | none => simp [hget]
        | some d =>
          simp only [hget, Option.getD_some]
          exact (hu (u, d) (alGet_mem hget)).1
      · exact hu p hmem
    · exact dequeAppend_wf _ _ _ hg.1
  · rw [if_pos (by simp [he])]
    exact h

/-- `clear_all_context` preserves the invariant. -/
theorem ctxWf_clear_all (s : CtxState) (h : ctxWf s) : ctxWf (clear_all_context s) := by
  obtain ⟨_, hg⟩ := h
  exact ⟨by intro p hp; simp [clear_all_context] at hp, ⟨hg.1, Nat.zero_le _⟩⟩

/-- `set_context_length` re-establishes the invariant at the new capacity. -/
theorem ctxWf_resize (s : CtxState) (n : Nat) : ctxWf (set_context_length s n) := by
  constructor
  · intro p hp
    rcases List.mem_map.1 hp with ⟨q, _, heq⟩
    subst heq
    exact ⟨rfl, takeRight_length_le n _⟩
  · exact ⟨rfl, takeRight_length_le n _⟩

/-- Every operation preserves the invariant. -/
theorem ctxWf_runOps (ops : List CtxOp) :
    ∀ s : CtxState, ctxWf s → ctxWf (runCtxOps s ops) := by
  induction ops with
  | nil => intro s h; exact h
  | cons op ops ih =>
    intro s h
    apply ih
    cases op with
    | add now username message isBot => exact ctxWf_add s now username message isBot h
    | clearUser username => exact ctxWf_clear_user s username h
    | clearAll => exact ctxWf_clear_all s h
    | resize n => exact ctxWf_resize s n

/-- One enabled `add_message` step on the single-user closed-form state. -/
theorem add_message_closed (u : String) (m : Nat) (itemsU itemsG : List String) (x : String) :
    add_message ⟨true, m, [(u, ⟨m, itemsU⟩)], ⟨m, itemsG⟩, [(u, 0)], 3600⟩ 0 u x false
      = ⟨true, m, [(u, ⟨m, takeRight m (itemsU ++ [u ++ ": " ++ x])⟩)],
          ⟨m, takeRight m (itemsG ++ [u ++ ": " ++ x])⟩, [(u, 0)], 3600⟩ := by
  unfold add_message
  rw [if_neg (by simp)]
  dsimp only
  rw [alGet_cons_hit u _ [] u (by simp)]
  simp only [Option.getD_some, Bool.false_eq_true, if_false]
  have hset1 : alSet [(u, (⟨m, itemsU⟩ : BDeque))] u
      (dequeAppend ⟨m, itemsU⟩ (u ++ ": " ++ x)) = [(u, dequeAppend ⟨m, itemsU⟩ (u ++ ": " ++ x))] := by
    unfold alSet
    rw [if_pos (by simp [List.find?])]
    simp [List.map_cons]
  have hset2 : alSet [(u, (0 : ℤ))] u 0 = [(u, (0 : ℤ))] := by
    unfold alSet
    rw [if_pos (by simp [List.find?])]
    simp [List.map_cons]
  rw [hset1, hset2]
  unfold cleanupOldContexts
  dsimp only
  have hfil : List.filter (fun p : String × ℤ => decide (p.2 < 0 - 3600)) [(u, (0 : ℤ))] = [] := by
    simp
  rw [hfil]
  rfl

/-- Closed form of the single-user append experiment, from an arbitrary
single-user state inside the capacity bound. -/
theorem appendTurns_closed (u : String) (m : Nat) :
    ∀ (msgs itemsU itemsG : List String),
      itemsU.length ≤ m → itemsG.length ≤ m →
      appendTurns ⟨true, m, [(u, ⟨m, itemsU⟩)], ⟨m, itemsG⟩, [(u, 0)], 3600⟩ u msgs
        = ⟨true, m,
            [(u, ⟨m, takeRight m (itemsU ++ msgs.map (fun x => u ++ ": " ++ x))⟩)],
            ⟨m, takeRight m (itemsG ++ msgs.map (fun x => u ++ ": " ++ x))⟩,
            [(u, 0)], 3600⟩ := by
  intro msgs
  induction msgs with
  | nil =>
    intro itemsU itemsG hU hG
    simp only [appendTurns, List.foldl_nil, List.map_nil, List.append_nil]
    rw [takeRight_eq_self m itemsU hU, takeRight_eq_self m itemsG hG]
  | cons x rest ih =>
    intro itemsU itemsG hU hG
    have hstep : appendTurns ⟨true, m, [(u, ⟨m, itemsU⟩)], ⟨m, itemsG⟩, [(u, 0)], 3600⟩
          u (x :: rest)
        = appendTurns ⟨true, m, [(u, ⟨m, takeRight m (itemsU ++ [u ++ ": " ++ x])⟩)],
            ⟨m, takeRight m (itemsG ++ [u ++ ": " ++ x])⟩, [(u, 0)], 3600⟩ u rest := by
      unfold appendTurns
      rw [List.foldl_cons, add_message_closed]
    rw [hstep]
    rw [ih (takeRight m (itemsU ++ [u ++ ": " ++ x]))
        (takeRight m (itemsG ++ [u ++ ": " ++ x]))
        (takeRight_length_le m _) (takeRight_length_le m _)]
    rw [takeRight_append_absorb, takeRight_append_absorb,
        List.append_assoc, List.append_assoc]
    rfl

/-- Claim C4: from a freshly initialised context store, every sequence of
operations (adds, clears, resizes) keeps each per-user sequence and the
global sequence within the configured capacity; and appending
`max_context_length + 1` turns for one identity leaves exactly
`max_context_length` turns, the first-appended one evicted. -/
theorem claim_c4_bounded_context :
    (∀ (en : Bool) (m : Nat) (ops : List CtxOp), ctxWf (runCtxOps (CtxState.init en m) ops))
    ∧ (∀ (m : Nat) (u : String) (msgs : List String), msgs.length = m + 1 →
        alGet (appendTurns (CtxState.init true m) u msgs).userContexts u
            = some ⟨m, (msgs.map (fun x => u ++ ": " ++ x)).drop 1⟩
        ∧ ((msgs.map (fun x => u ++ ": " ++ x)).drop 1).length = m) := by
  constructor
  · intro en m ops
    apply ctxWf_runOps
    exact ⟨by intro p hp; simp [CtxState.init] at hp, ⟨rfl, Nat.zero_le _⟩⟩
  · intro m u msgs hlen
    cases msgs with
    | nil => simp at hlen
    | cons x rest =>
      have hfirst : add_message (CtxState.init true m) 0 u x false
          = ⟨true, m, [(u, ⟨m, takeRight m [u ++ ": " ++ x]⟩)],
              ⟨m, takeRight m [u ++ ": " ++ x]⟩, [(u, 0)], 3600⟩ := by
        unfold add_message CtxState.init
        rw [if_neg (by simp)]
        dsimp only
        simp only [alGet, List.find?_nil, Option.map_none', Option.getD_none,
          Bool.false_eq_true, if_false]
        unfold alSet
        simp only [List.find?_nil, Option.isSome_none, Bool.false_eq_true, if_false,
          List.nil_append]
        unfold cleanupOldContexts
        dsimp only
        have hfil : List.filter (fun p : String × ℤ => decide (p.2 < 0 - 3600))
            [(u, (0 : ℤ))] = [] := by simp
        rw [hfil]
        simp [dequeAppend]
      have hsplit : appendTurns (CtxState.init true m) u (x :: rest)
          = appendTurns ⟨true, m, [(u, ⟨m, takeRight m [u ++ ": " ++ x]⟩)],
              ⟨m, takeRight m [u ++ ": " ++ x]⟩, [(u, 0)], 3600⟩ u rest := by
        unfold appendTurns
        rw [List.foldl_cons, hfirst]
      rw [hsplit, appendTurns_closed u m rest _ _
          (takeRight_length_le m _) (takeRight_length_le m _)]
      have habs : takeRight m (takeRight m [u ++ ": " ++ x]
            ++ rest.map (fun y => u ++ ": " ++ y))
          = takeRight m ((x :: rest).map (fun y => u ++ ": " ++ y)) := by
        rw [takeRight_append_absorb]
        rfl
      have hlist : takeRight m ((x :: rest).map (fun y => u ++ ": " ++ y))
          = ((x :: rest).map (fun y => u ++ ": " ++ y)).drop 1 := by
        unfold takeRight
        rw [List.length_map, hlen]
        congr 1
        omega
      constructor
      · rw [alGet_cons_hit u _ [] u (by simp), habs, hlist]
      · rw [List.length_drop, List.length_map, hlen]
        omega

/-- Witness for claim C4: three concrete operations at capacity 3, and the
two-turn overflow experiment at capacity 1. -/
theorem claim_c4_bounded_context_witness :
    ctxWf (runCtxOps (CtxState.init true 3)
      [CtxOp.add 0 "a" "hello" false, CtxOp.resize 2, CtxOp.add 5 "b" "hi" true])
    ∧ (alGet (appendTurns (CtxState.init true 1) "alice" ["a", "b"]).userContexts "alice"
        = some ⟨1, (["a", "b"].map (fun x => "alice" ++ ": " ++ x)).drop 1⟩
      ∧ ((["a", "b"].map (fun x => "alice" ++ ": " ++ x)).drop 1).length = 1) :=
  ⟨claim_c4_bounded_context.1 true 3
      [CtxOp.add 0 "a" "hello" false, CtxOp.resize 2, CtxOp.add 5 "b" "hi" true],
   claim_c4_bounded_context.2 1 "alice" ["a", "b"] rfl⟩

/-- Claim C9: `set_context_length` is idempotent — a second application at
the same capacity changes nothing, as every rebuilt deque already fits. -/
theorem claim_c9_resize_idempotent (s : CtxState) (n : Nat) :
    set_context_length (set_context_length s n) n = set_context_length s n := by
  unfold set_context_length
  dsimp only
  congr 1
  · rw [List.map_map]
    apply List.map_congr_left
    intro p _
    dsimp only [Function.comp]
    rw [takeRight_idem]
  · rw [takeRight_idem]

/-- Claim C10: with the context-enable flag off, `add_message` leaves the
whole store untouched and `get_context` returns the empty string. -/
theorem claim_c10_disabled_frame :
    ∀ (s : CtxState) (now : ℤ) (u msg : String) (b ig : Bool),
      s.enabled = false →
      add_message s now u msg b = s ∧ get_context s u ig = "" := by
  intro s now u msg b ig h
  constructor
  · unfold add_message
    rw [if_pos (by simp [h])]
  · unfold get_context
    rw [if_pos (by simp [h])]

/-- Witness for claim C10 on a disabled store of capacity 5. -/
theorem claim_c10_disabled_frame_witness :
    add_message (CtxState.init false 5) 0 "u" "m" false = CtxState.init false 5
    ∧ get_context (CtxState.init false 5) "u" true = "" :=
  claim_c10_disabled_frame (CtxState.init false 5) 0 "u" "m" false true rfl

/-- Claim C8: whenever a message parses as a command, an unregistered
command word yields the canned "unknown command" reply (the function is
total, so nothing escalates), and a registered handler whose call raises is
converted into the visible error string. -/
theorem claim_c8_dispatch :
    ∀ (username message trigger : String)
      (handlerOutcome : String → String → String → Except String String)
      (p : ParsedCommand),
      parse_command message trigger = some p →
      ((commandRegistry.contains p.command = false →
        handle_command username message trigger handlerOutcome
          = some ("Unknown command: " ++ p.command ++ ". Type \x27" ++ trigger
              ++ " help\x27 for available commands."))
      ∧ (∀ e : String, commandRegistry.contains p.command = true →
          handlerOutcome username p.command p.args = .error e →
          handle_command username message trigger handlerOutcome
            = some ("Error executing command: " ++ e))) := by
  intro username message trigger handlerOutcome p hp
  unfold handle_command
  rw [hp]
  dsimp only
  constructor
  · intro hreg
    rw [hreg]
    rfl
  · intro e hreg herr
    rw [hreg, herr]
    rfl

/-- Witness for claim C8: trigger `"Bot"`, an unregistered word
`"frobnicate"`, and the registered `"ping"` with a raising handler. -/
theorem claim_c8_dispatch_witness :
    handle_command "alice" "Bot frobnicate now" "Bot" (fun _ _ _ => Except.error "boom")
      = some ("Unknown command: frobnicate. Type \x27Bot help\x27 for available commands.")
    ∧ handle_command "alice" "Bot ping" "Bot" (fun _ _ _ => Except.error "boom")
      = some ("Error executing command: boom") :=
  ⟨(claim_c8_dispatch "alice" "Bot frobnicate now" "Bot" (fun _ _ _ => Except.error "boom")
      ⟨"frobnicate", "now", "Bot frobnicate now"⟩ (by decide)).1 (by decide),
   (claim_c8_dispatch "alice" "Bot ping" "Bot" (fun _ _ _ => Except.error "boom")
      ⟨"ping", "", "Bot ping"⟩ (by decide)).2 "boom" (by decide) rfl⟩

/-- The generation calls `_process_ai_request` issues when the duplication
guard does not fire: exactly one, with the given prompt, the identity's
context and the current model, whatever the backend outcome. -/
theorem process_ai_request_genCalls (cfg : BotConfig) (st : ProcState) (now : ℤ)
    (loopTime username prompt : String) (genResult : Except Unit (Option String))
    (hfresh : st.processingTasks.contains (username ++ "_" ++ loopTime) = false) :
    (process_ai_request cfg st now loopTime username prompt genResult).genCalls
      = st.genCalls ++ [GenCall.mk prompt (get_context st.ctx username true) cfg.model] := by
  unfold process_ai_request
  rw [if_neg (by rw [hfresh]; exact Bool.false_ne_true)]
  dsimp only
  rcases genResult with e | r
  · rfl
  · cases r with
    | none => rfl
    | some str =>
      dsimp only
      by_cases hs : str = ""
      · rw [if_pos hs]
      · rw [if_neg hs]

/-- Claim C1 (amended): the raw line `"<2>alice: Bot, what time is it?"`
parses to username `"alice"` and content `"Bot, what time is it?"`; prompt
derivation on that content with trigger `"Bot"` yields `", what time is
it?"` (the comma is not one of the stripped separators); and, given
rate-limiter admission and a fresh task id, processing issues exactly one
generation call carrying that prompt. -/
theorem claim_c1_pipeline :
    extract_username_from_message "<2>alice: Bot, what time is it?" = some "alice"
    ∧ extract_message_content "<2>alice: Bot, what time is it?" = "Bot, what time is it?"
    ∧ extract_prompt "Bot" "Bot, what time is it?" = some ", what time is it?"
    ∧ (∀ (cfg : BotConfig) (st : ProcState) (now : ℤ) (loopTime : String)
        (genResult : Except Unit (Option String)),
        cfg.trigger = "Bot" →
        (is_allowed st.rl now "alice").1 = true →
        st.processingTasks.contains ("alice" ++ "_" ++ loopTime) = false →
        ∃ c : GenCall,
          (process_message cfg st now loopTime "<2>alice: Bot, what time is it?" "alice"
            "Bot, what time is it?" genResult).genCalls = st.genCalls ++ [c]
          ∧ c.prompt = ", what time is it?") := by
  refine ⟨by decide, by decide, by decide, ?_⟩
  intro cfg st now loopTime genResult htrig hallow hfresh
  unfold process_message
  rw [htrig]
  rw [if_neg (by decide)]
  dsimp only
  rw [show extract_prompt "Bot" "Bot, what time is it?" = some ", what time is it?"
      from by decide]
  rw [if_neg (by decide)]
  dsimp only
  rw [if_neg (by simp [hallow])]
  refine ⟨GenCall.mk ", what time is it?"
    (get_context (add_message st.ctx now "alice" "Bot, what time is it?" false) "alice" true)
    cfg.model, ?_, rfl⟩
  exact process_ai_request_genCalls cfg _ now loopTime "alice" ", what time is it?"
    genResult hfresh

/-- Claim C1 counterexample: on the concrete content the derived prompt is
`", what time is it?"` — the comma after the trigger survives, because only
`':'`, `'-'`, `'>'`, `'|'` are stripped — not the claimed
`"what time is it?"`. -/
theorem claim_c1_counterexample :
    extract_prompt "Bot" "Bot, what time is it?" = some ", what time is it?"
    ∧ some (", what time is it?" : String) ≠ some ("what time is it?" : String) :=
  ⟨by decide, by decide⟩

/-- Witness for claim C1 on a fresh enabled state at time 0. -/
theorem claim_c1_pipeline_witness :
    ∃ c : GenCall,
      (process_message ⟨"Bot", "NakenBot", "llama2", 500⟩
        ⟨⟨true, 5, 60, [], []⟩, CtxState.init true 10, [], [], []⟩ 0 "7"
        "<2>alice: Bot, what time is it?" "alice" "Bot, what time is it?"
        (Except.ok (some "hi"))).genCalls = [] ++ [c]
      ∧ c.prompt = ", what time is it?" :=
  claim_c1_pipeline.2.2.2 ⟨"Bot", "NakenBot", "llama2", 500⟩
    ⟨⟨true, 5, 60, [], []⟩, CtxState.init true 10, [], [], []⟩ 0 "7"
    (Except.ok (some "hi")) rfl (by decide) (by decide)

/-- Claim C5 evaluation: with `max_reconnect_attempts = 3`, a read error
followed by three consecutive failed `connect()` attempts leaves a fourth
reconnection task scheduled, and after any number `n` of consecutive
failures `n + 1` tasks have been created with another one always pending:
the `_reconnect` failure path reschedules without consulting the attempt
cap. -/
theorem claim_c5_reconnect_eval :
    (handle_connection_error 3 ⟨true, false, 0, false, 0⟩).pendingReconnect = true
    ∧ ((reconnect_step false)^[3]
        (handle_connection_error 3 ⟨true, false, 0, false, 0⟩)).pendingReconnect = true
    ∧ ((reconnect_step false)^[3]
        (handle_connection_error 3 ⟨true, false, 0, false, 0⟩)).tasksCreated = 4
    ∧ (∀ n : Nat,
        ((reconnect_step false)^[n]
          (handle_connection_error 3 ⟨true, false, 0, false, 0⟩)).tasksCreated = n + 1
        ∧ ((reconnect_step false)^[n]
            (handle_connection_error 3 ⟨true, false, 0, false, 0⟩)).pendingReconnect = true) := by
  have hkey : ∀ n : Nat, (reconnect_step false)^[n] (⟨false, false, 1, true, 1⟩ : ConnState)
      = ⟨false, false, 1, true, n + 1⟩ := by
    intro n
    induction n with
    | zero => rfl
    | succ k ih =>
      rw [Function.iterate_succ_apply', ih]
      rfl
  have hinit : handle_connection_error 3 ⟨true, false, 0, false, 0⟩
      = ⟨false, false, 1, true, 1⟩ := rfl
  rw [hinit]
  refine ⟨rfl, ?_, ?_, ?_⟩
  · rw [hkey 3]
  · rw [hkey 3]
  · intro n
    rw [hkey n]
    exact ⟨rfl, rfl⟩

end NakenBot
